/-
  Verification of the Silent Hill 2 (2024) save editor (sh2_save_editor.py).

  The development shallowly embeds the editor's core logic over `List Nat`
  byte buffers:
  * `pySlice` / `pySetSlice` model Python slicing and `bytearray` slice
    assignment (including negative-index normalisation and clamping);
  * `unpack4` models `struct.unpack` of a little-endian 32-bit field (it
    fails, like `struct.error`, unless given exactly 4 bytes);
  * `findSub` / `findSubIn` model `bytes.find` (first occurrence, optional
    window);
  * `load` / `save` model `SH2SaveEditor.load` / `SH2SaveEditor.save`, with
    the zlib compressor/decompressor passed in as explicit functions (zlib
    itself is an external library; its properties used here are the ones
    the spec states: losslessness and the 78 9C / 78 DA stream prefix);
  * the field accessors (`getHealth`, `setHealth`, `getWeaponAmmo`,
    `setWeaponAmmo`, `getItemQuantity`, `setItemQuantity`) model the
    corresponding methods.  A float32 value is represented by its 32-bit
    pattern, so `struct.pack <f` / `unpack <f` become the identity on
    patterns; int32 values are `Int`s encoded two's-complement.

  An uncaught Python exception (struct.error / zlib.error) is modelled as
  an `Except.error`.
-/
import Mathlib

set_option maxRecDepth 100000

/-! ### Little-endian 32-bit encode / decode -/

/-- `struct.unpack('<I', bs)`: succeeds only on exactly 4 bytes
(`struct.error` otherwise, modelled as `none`). -/
def unpack4 (bs : List Nat) : Option Nat :=
  match bs with
  | [a, b, c, d] => some (a + 256 * b + 65536 * c + 16777216 * d)
  | _ => none

/-- `struct.pack('<I', n)`: the 4 little-endian bytes of `n` (mod 2^32). -/
def encodeU32 (n : Nat) : List Nat :=
  [n % 256, n / 256 % 256, n / 65536 % 256, n / 16777216 % 256]

/-- Interpret an unsigned 32-bit value as a signed int32
(two's complement), as `struct.unpack('<i', _)` does. -/
def toI32 (u : Nat) : Int :=
  if u < 2147483648 then (u : Int) else (u : Int) - 4294967296

/-- `struct.pack('<i', v)`: little-endian two's-complement bytes. -/
def encodeI32 (v : Int) : List Nat :=
  encodeU32 (v % 4294967296).toNat

theorem length_encodeU32 (n : Nat) : (encodeU32 n).length = 4 := rfl

theorem length_encodeI32 (v : Int) : (encodeI32 v).length = 4 := rfl

theorem unpack4_encodeU32 (n : Nat) :
    unpack4 (encodeU32 n) = some (n % 4294967296) := by
  simp only [unpack4, encodeU32, Option.some.injEq]
  omega

theorem unpack4_encodeU32_of_lt (n : Nat) (h : n < 4294967296) :
    unpack4 (encodeU32 n) = some n := by
  rw [unpack4_encodeU32, Nat.mod_eq_of_lt h]

theorem unpack4_eq_none_of_length (bs : List Nat) (h : bs.length ≠ 4) :
    unpack4 bs = none := by
  match bs with
  | [] => rfl
  | [_] => rfl
  | [_, _] => rfl
  | [_, _, _] => rfl
  | [_, _, _, _] => exact absurd rfl h
  | _ :: _ :: _ :: _ :: _ :: _ => rfl

theorem unpack4_encodeI32 (v : Int) :
    unpack4 (encodeI32 v) = some (v % 4294967296).toNat := by
  have hmod : (0:Int) ≤ v % 4294967296 := Int.emod_nonneg v (by norm_num)
  have hlt : v % 4294967296 < 4294967296 := Int.emod_lt_of_pos v (by norm_num)
  rw [encodeI32, unpack4_encodeU32_of_lt _ (by omega)]

theorem toI32_emod (v : Int) (h1 : -2147483648 ≤ v) (h2 : v < 2147483648) :
    toI32 (v % 4294967296).toNat = v := by
  have hmod : (0:Int) ≤ v % 4294967296 := Int.emod_nonneg v (by norm_num)
  have hlt : v % 4294967296 < 4294967296 := Int.emod_lt_of_pos v (by norm_num)
  unfold toI32
  split <;> omega

/-! ### Python slice semantics -/

/-- Python `data[start:stop]` on a byte sequence: negative indices count
from the end, then both bounds are clamped to `[0, len]`. -/
def pySlice (data : List Nat) (start stop : Int) : List Nat :=
  let n : Int := data.length
  let s := if start < 0 then max (n + start) 0 else min start n
  let e := if stop < 0 then max (n + stop) 0 else min stop n
  (data.take e.toNat).drop s.toNat

/-- Python `data[start:stop] = repl` on a `bytearray` (contiguous slice):
the slice bounds are normalised exactly as in `pySlice`, the addressed
range is removed and `repl` inserted in its place. -/
def pySetSlice (data : List Nat) (start stop : Int) (repl : List Nat) :
    List Nat :=
  let n : Int := data.length
  let s := if start < 0 then max (n + start) 0 else min start n
  let e := if stop < 0 then max (n + stop) 0 else min stop n
  let e2 := max s e
  (data.take s.toNat) ++ repl ++ data.drop e2.toNat

theorem drop_min_of_le {α : Type} (xs : List α) (s n : Nat)
    (h : xs.length ≤ n) : xs.drop (min s n) = xs.drop s := by
  rcases Nat.le_total s n with hle | hle
  · rw [Nat.min_eq_left hle]
  · rw [Nat.min_eq_right hle, List.drop_eq_nil_of_le h,
      List.drop_eq_nil_of_le (Nat.le_trans h hle)]

theorem pySlice_nat (data : List Nat) (s len : Nat) :
    pySlice data (s : Int) ((s : Int) + (len : Int)) =
      (data.take (min (s + len) data.length)).drop s := by
  unfold pySlice
  have h0 : ¬ ((s : Int) < 0) := by omega
  have h1 : ¬ ((s : Int) + (len : Int) < 0) := by omega
  simp only [h0, h1, if_false]
  have e1 : (min ((s : Int) + (len : Int)) ((data.length : Nat) : Int)).toNat
      = min (s + len) data.length := by omega
  have e2 : (min (s : Int) ((data.length : Nat) : Int)).toNat
      = min s data.length := by omega
  rw [e1, e2, drop_min_of_le]
  rw [List.length_take]
  omega

/-- An in-bounds 4-byte overwrite: plain splice with no length change. -/
theorem pySetSlice_inbounds (data repl : List Nat) (s : Nat)
    (hs : s + repl.length ≤ data.length) :
    pySetSlice data (s : Int) ((s : Int) + (repl.length : Int)) repl =
      data.take s ++ repl ++ data.drop (s + repl.length) := by
  unfold pySetSlice
  have h0 : ¬ ((s : Int) < 0) := by omega
  have h1 : ¬ ((s : Int) + (repl.length : Int) < 0) := by omega
  simp only [h0, h1, if_false]
  have e1 : (min (s : Int) ((data.length : Nat) : Int)).toNat = s := by omega
  have e2 : (max (min (s : Int) ((data.length : Nat) : Int))
      (min ((s : Int) + (repl.length : Int)) ((data.length : Nat) : Int))).toNat
      = s + repl.length := by omega
  rw [e1, e2]

theorem length_pySetSlice_inbounds (data repl : List Nat) (s : Nat)
    (hs : s + repl.length ≤ data.length) :
    (pySetSlice data (s : Int) ((s : Int) + (repl.length : Int)) repl).length
      = data.length := by
  rw [pySetSlice_inbounds data repl s hs]
  simp only [List.length_append, List.length_take, List.length_drop]
  omega

/-! ### `bytes.find`: first occurrence of a subsequence -/

/-- Helper for `findSub`: scan positions `i, i+1, ...` for a match. -/
def findSubAux (needle : List Nat) : List Nat → Nat → Option Nat
  | [], i => if needle <+: ([] : List Nat) then some i else none
  | h :: t, i =>
    if needle <+: h :: t then some i else findSubAux needle t (i + 1)

/-- `data.find(needle)` restricted to a success `Option`: index of the
first occurrence of `needle` as a contiguous block (the Python method
returns `-1` on a miss; callers of this model translate `none` to `-1`). -/
def findSub (needle hay : List Nat) : Option Nat := findSubAux needle hay 0

/-- `data.find(needle, start, stop)`: the occurrence must lie entirely
inside `data[start:stop]`. -/
def findSubIn (needle hay : List Nat) (start stop : Nat) : Option Nat :=
  match findSub needle ((hay.take stop).drop start) with
  | none => none
  | some k => some (start + k)

theorem findSubAux_shift (needle hay : List Nat) (i : Nat) :
    findSubAux needle hay i = (findSubAux needle hay 0).map (fun k => i + k) := by
  induction hay generalizing i with
  | nil =>
    simp only [findSubAux]
    split
    · simp
    · simp
  | cons h t ih =>
    simp only [findSubAux]
    split
    · simp
    · rw [ih (i + 1), ih (0 + 1), Option.map_map]
      congr 1
      funext k
      simp only [Function.comp_apply]
      omega

/-- `findSub` finds a match, and the first one. -/
theorem findSub_eq_some_iff (needle hay : List Nat) (p : Nat) :
    findSub needle hay = some p ↔
      (needle <+: hay.drop p ∧ ∀ q, q < p → ¬ needle <+: hay.drop q) := by
  induction hay generalizing p with
  | nil =>
    rw [findSub]
    simp only [findSubAux]
    split
    · rename_i hpre
      constructor
      · intro he
        injection he with he
        subst he
        exact ⟨by simpa using hpre, by omega⟩
      · rintro ⟨h1, h2⟩
        by_contra hne
        have hp0 : 0 < p := by
          rcases Nat.eq_zero_or_pos p with h | h
          · exact absurd (by rw [h]) hne
          · exact h
        exact h2 0 hp0 (by simpa using hpre)
    · rename_i hpre
      constructor
      · intro he
        cases he
      · rintro ⟨h1, _⟩
        rw [List.drop_nil] at h1
        exact absurd (by simpa using h1) hpre
  | cons h t ih =>
    rw [findSub]
    simp only [findSubAux]
    split
    · rename_i hpre
      constructor
      · intro he
        injection he with he
        subst he
        exact ⟨by simpa using hpre, by omega⟩
      · rintro ⟨h1, h2⟩
        by_contra hne
        have hp0 : 0 < p := by
          rcases Nat.eq_zero_or_pos p with hz | hz
          · exact absurd (by rw [hz]) hne
          · exact hz
        exact h2 0 hp0 (by simpa using hpre)
    · rename_i hpre
      rw [findSubAux_shift needle t (0 + 1)]
      constructor
      · intro he
        cases hft : findSub needle t with
        | none =>
          rw [findSub] at hft
          rw [hft] at he
          cases he
        | some k =>
          rw [findSub] at hft
          rw [hft] at he
          simp only [Option.map_some'] at he
          injection he with he
          obtain ⟨hk1, hk2⟩ := (ih k).mp hft
          have hp : p = k + 1 := by omega
          subst hp
          refine ⟨by rw [List.drop_succ_cons]; exact hk1, ?_⟩
          intro q hq
          cases q with
          | zero => simpa using hpre
          | succ q =>
            rw [List.drop_succ_cons]
            exact hk2 q (by omega)
      · rintro ⟨h1, h2⟩
        cases p with
        | zero => exact absurd (by simpa using h1) hpre
        | succ p =>
          have hft : findSub needle t = some p := by
            rw [ih p]
            refine ⟨by simpa [List.drop_succ_cons] using h1, ?_⟩
            intro q hq hc
            exact h2 (q + 1) (by omega) (by simpa [List.drop_succ_cons] using hc)
          rw [findSub] at hft
          rw [hft]
          simp only [Option.map_some']
          congr 1
          omega

theorem findSub_le_length (needle hay : List Nat) (p : Nat)
    (h : findSub needle hay = some p) : p ≤ hay.length := by
  induction hay generalizing p with
  | nil =>
    rw [findSub] at h
    simp only [findSubAux] at h
    split at h
    · injection h with h
      omega
    · cases h
  | cons hd t ih =>
    rw [findSub] at h
    simp only [findSubAux] at h
    split at h
    · injection h with h
      omega
    · rw [findSubAux_shift needle t (0 + 1)] at h
      cases hft : findSub needle t with
      | none =>
        rw [findSub] at hft
        rw [hft] at h
        cases h
      | some k =>
        rw [findSub] at hft
        rw [hft] at h
        simp only [Option.map_some'] at h
        injection h with h
        have hk := ih k hft
        simp only [List.length_cons]
        omega

theorem findSub_bound (needle hay : List Nat) (p : Nat)
    (h : findSub needle hay = some p) : p + needle.length ≤ hay.length := by
  have h1 := ((findSub_eq_some_iff _ _ _).mp h).1
  have h2 := h1.length_le
  rw [List.length_drop] at h2
  have h3 := findSub_le_length needle hay p h
  omega

/-- Whether `needle` occurs at `q` only depends on the first
`q + needle.length` bytes. -/
theorem prefix_drop_iff_of_take_eq (needle hay hay' : List Nat) (n q : Nat)
    (hagree : hay'.take n = hay.take n) (hb : q + needle.length ≤ n) :
    (needle <+: hay.drop q ↔ needle <+: hay'.drop q) := by
  have key : ∀ (l l' : List Nat), l'.take n = l.take n →
      needle <+: l.drop q → needle <+: l'.drop q := by
    intro l l' hag hpre
    rw [ List.prefix_iff_eq_take] at hpre ⊢
    rw [List.take_drop] at hpre ⊢
    have e : l'.take (q + needle.length) = l.take (q + needle.length) := by
      have hc := congrArg (List.take (q + needle.length)) hag
      rwa [List.take_take, List.take_take, Nat.min_eq_left hb] at hc
    rw [e]
    exact hpre
  exact ⟨key hay hay' hagree, key hay' hay hagree.symm⟩

/-- First-occurrence search is stable under changes beyond the match. -/
theorem findSub_stable (needle hay hay' : List Nat) (n p : Nat)
    (hagree : hay'.take n = hay.take n)
    (hp : findSub needle hay = some p) (hb : p + needle.length ≤ n) :
    findSub needle hay' = some p := by
  rw [findSub_eq_some_iff] at hp ⊢
  obtain ⟨h1, h2⟩ := hp
  refine ⟨(prefix_drop_iff_of_take_eq needle hay hay' n p hagree hb).mp h1, ?_⟩
  intro q hq hc
  exact h2 q hq
    ((prefix_drop_iff_of_take_eq needle hay hay' n q hagree (by omega)).mpr hc)

theorem findSubIn_facts (needle hay : List Nat) (start stop q : Nat)
    (hne : 0 < needle.length)
    (h : findSubIn needle hay start stop = some q) :
    start ≤ q ∧ q + needle.length ≤ stop ∧ q + needle.length ≤ hay.length ∧
      needle <+: hay.drop q := by
  unfold findSubIn at h
  cases hfs : findSub needle ((hay.take stop).drop start) with
  | none =>
    rw [hfs] at h
    cases h
  | some k =>
    rw [hfs] at h
    injection h with h
    have hbound := findSub_bound _ _ _ hfs
    rw [List.length_drop, List.length_take] at hbound
    have hpre := ((findSub_eq_some_iff _ _ _).mp hfs).1
    rw [List.drop_drop] at hpre
    rw [List.drop_take] at hpre
    have hpre2 : needle <+: hay.drop (start + k) :=
      hpre.trans (List.take_prefix _ _)
    subst h
    refine ⟨by omega, by omega, by omega, hpre2⟩

theorem findSubIn_stable (needle hay hay' : List Nat) (start stop q n : Nat)
    (hagree : hay'.take n = hay.take n)
    (hq : findSubIn needle hay start stop = some q)
    (hb : q + needle.length ≤ n) :
    findSubIn needle hay' start stop = some q := by
  unfold findSubIn at hq ⊢
  cases hfs : findSub needle ((hay.take stop).drop start) with
  | none =>
    rw [hfs] at hq
    cases hq
  | some k =>
    rw [hfs] at hq
    injection hq with hq
    have hw : ((hay'.take stop).drop start).take (k + needle.length)
        = ((hay.take stop).drop start).take (k + needle.length) := by
      rw [List.take_drop, List.take_drop, List.take_take, List.take_take]
      congr 1
      have hm : min (start + (k + needle.length)) stop ≤ n := by omega
      calc hay'.take (min (start + (k + needle.length)) stop)
          = (hay'.take n).take (min (start + (k + needle.length)) stop) := by
            rw [List.take_take, Nat.min_eq_left hm]
        _ = (hay.take n).take (min (start + (k + needle.length)) stop) := by
            rw [hagree]
        _ = hay.take (min (start + (k + needle.length)) stop) := by
            rw [List.take_take, Nat.min_eq_left hm]
    have hs := findSub_stable needle ((hay.take stop).drop start)
      ((hay'.take stop).drop start) (k + needle.length) k hw hfs (by omega)
    rw [hs]
    show some (start + k) = some q
    rw [hq]

/-- Bytes inside a located occurrence equal the needle's bytes. -/
theorem prefix_drop_getElem (needle hay : List Nat) (q j : Nat)
    (h : needle <+: hay.drop q) (hj : j < needle.length)
    (hlen : q + j < hay.length) :
    hay[q + j] = needle[j] := by
  have h1 := h.getElem hj
  rw [List.getElem_drop] at h1
  exact h1.symm

/-! ### Container locator: `SH2SaveEditor.load` / `SH2SaveEditor.save`

The zlib compressor / decompressor are passed in explicitly; `load dcp`
and `save cmp` are otherwise literal translations of the Python methods.
A `LoadError.badStruct` models an uncaught `struct.error`, a
`LoadError.corrupt` an uncaught `zlib.error`. -/

/-- The retained `self.save_data` fields of a successful `load`. -/
structure LoadedSave where
  header : List Nat
  compressionOffset : Nat
  compressedSize : Nat
  uncompressedSize : Nat
  decompressed : List Nat
  deriving DecidableEq, Repr

inductive LoadError where
  | notFound
  | badStruct
  | corrupt
  deriving DecidableEq, Repr

/-- `data[i:i+2] in (b'\x78\x9c', b'\x78\xda')`. -/
def sigAt (data : List Nat) (i : Nat) : Bool :=
  decide ((data.drop i).take 2 = [120, 156] ∨ (data.drop i).take 2 = [120, 218])

/-- The scan `for i in range(0, 300)` stopping at the first signature. -/
def firstSig (data : List Nat) : Option Nat :=
  (List.range 300).find? (fun i => sigAt data i)

/-- `SH2SaveEditor.load`, with the decompressor `dcp` a parameter. -/
def load (dcp : List Nat → Option (List Nat)) (data : List Nat) :
    Except LoadError LoadedSave :=
  match firstSig data with
  | none => .error .notFound
  | some i =>
    match unpack4 (pySlice data ((i : Int) - 8) ((i : Int) - 4)) with
    | none => .error .badStruct
    | some c =>
      match unpack4 (pySlice data ((i : Int) - 4) (i : Int)) with
      | none => .error .badStruct
      | some u =>
        match dcp (pySlice data (i : Int) ((i : Int) + (c : Int))) with
        | none => .error .corrupt
        | some dec =>
          .ok ⟨pySlice data 0 ((i : Int) - 8), i, c, u, dec⟩

/-- `SH2SaveEditor.save`'s output bytes, with the compressor `cmp` a
parameter: `header ++ pack(newCompressedSize) ++ pack(newUncompressedSize)
++ compressed`. -/
def save (cmp : List Nat → List Nat) (header payload : List Nat) : List Nat :=
  header ++ encodeU32 (cmp payload).length ++ encodeU32 payload.length
    ++ cmp payload

/-- The zlib facts the spec relies on: decompression inverts compression,
and a compressed stream starts with `78 9C` or `78 DA`. -/
def zlibSpecProps (cmp : List Nat → List Nat)
    (dcp : List Nat → Option (List Nat)) : Prop :=
  (∀ p, dcp (cmp p) = some p) ∧
  (∀ p, (cmp p).take 2 = [120, 156] ∨ (cmp p).take 2 = [120, 218])

/-! ### Field locator -/

/-- The bytes of the string `HealthValue`. -/
def healthValueName : List Nat :=
  [72, 101, 97, 108, 116, 104, 86, 97, 108, 117, 101]

/-- The bytes of `b'FloatProperty\x00'` (14 bytes, null included). -/
def floatPropertyToken : List Nat :=
  [70, 108, 111, 97, 116, 80, 114, 111, 112, 101, 114, 116, 121, 0]

/-- The bytes of `b'IntProperty\x00'` (12 bytes, null included). -/
def intPropertyToken : List Nat :=
  [73, 110, 116, 80, 114, 111, 112, 101, 114, 116, 121, 0]

/-- The bytes of `b'Quantity\x00'` (9 bytes, null included). -/
def quantityToken : List Nat :=
  [81, 117, 97, 110, 116, 105, 116, 121, 0]

/-- `SH2SaveEditor._find_property_offset` (`-1` = not found). -/
def findPropertyOffset (payload name : List Nat) (isFloat : Bool) : Int :=
  match findSub (name ++ [0]) payload with
  | none => -1
  | some pos =>
    let typeName := if isFloat then floatPropertyToken else intPropertyToken
    (pos : Int) + name.length + 1 + typeName.length + 4 + 8

/-- `SH2SaveEditor._find_weapon_offset` (`-1` = not found). -/
def findWeaponOffset (payload name : List Nat) : Int :=
  match findSub (name ++ [0]) payload with
  | none => -1
  | some pos => (pos : Int) + name.length + 1

/-- `SH2SaveEditor._find_item_quantity_offset` (`-1` = not found). -/
def findItemQuantityOffset (payload name : List Nat) : Int :=
  match findSub (name ++ [0]) payload with
  | none => -1
  | some pos =>
    match findSubIn quantityToken payload pos (pos + 100) with
    | none => -1
    | some q => (q : Int) + 34

/-- `SH2SaveEditor.get_health`.  The float32 value is reported as its
32-bit pattern; `.error ()` models an uncaught `struct.error`. -/
def getHealth (payload : List Nat) : Except Unit (Option Nat) :=
  let off := findPropertyOffset payload healthValueName true
  if 0 < off then
    match unpack4 (pySlice payload off (off + 4)) with
    | some v => .ok (some v)
    | none => .error ()
  else .ok none

/-- `SH2SaveEditor.set_health`; `bits` is the float32 pattern of the new
value.  Returns the new payload and the method's boolean result. -/
def setHealth (payload : List Nat) (bits : Nat) : List Nat × Bool :=
  let off := findPropertyOffset payload healthValueName true
  if 0 < off then (pySetSlice payload off (off + 4) (encodeU32 bits), true)
  else (payload, false)

/-- `SH2SaveEditor.get_weapon_ammo`. -/
def getWeaponAmmo (payload name : List Nat) : Except Unit (Option Int) :=
  let off := findWeaponOffset payload name
  if 0 < off then
    match unpack4 (pySlice payload off (off + 4)) with
    | some v => .ok (some (toI32 v))
    | none => .error ()
  else .ok none

/-- `SH2SaveEditor.set_weapon_ammo`. -/
def setWeaponAmmo (payload name : List Nat) (v : Int) : List Nat × Bool :=
  let off := findWeaponOffset payload name
  if 0 < off then (pySetSlice payload off (off + 4) (encodeI32 v), true)
  else (payload, false)

/-- `SH2SaveEditor.get_item_quantity` (the only reader with a bounds
check). -/
def getItemQuantity (payload name : List Nat) : Except Unit (Option Int) :=
  let off := findItemQuantityOffset payload name
  if 0 < off ∧ off + 4 ≤ (payload.length : Int) then
    match unpack4 (pySlice payload off (off + 4)) with
    | some v => .ok (some (toI32 v))
    | none => .error ()
  else .ok none

/-- `SH2SaveEditor.set_item_quantity` (the only writer with a bounds
check). -/
def setItemQuantity (payload name : List Nat) (v : Int) : List Nat × Bool :=
  let off := findItemQuantityOffset payload name
  if 0 < off ∧ off + 4 ≤ (payload.length : Int) then
    (pySetSlice payload off (off + 4) (encodeI32 v), true)
  else (payload, false)

/-! ### A uniform view of the editor's fields (for the frame property) -/

/-- One addressable scalar field of the save payload. -/
inductive GameField where
  | health
  | weapon (name : List Nat)
  | item (name : List Nat)
  deriving DecidableEq, Repr

/-- The computed value offset of a field (`-1` or `≤ 0` = not found). -/
def fieldOffset (payload : List Nat) : GameField → Int
  | .health => findPropertyOffset payload healthValueName true
  | .weapon name => findWeaponOffset payload name
  | .item name => findItemQuantityOffset payload name

/-- Read a field; the health float32 pattern is reported as an `Int` so
all three field kinds share one result type. -/
def readField (payload : List Nat) : GameField → Except Unit (Option Int)
  | .health =>
    match getHealth payload with
    | .ok (some bits) => .ok (some (bits : Int))
    | .ok none => .ok none
    | .error e => .error e
  | .weapon name => getWeaponAmmo payload name
  | .item name => getItemQuantity payload name

/-- Write a field (for health, `v` is reduced to a 32-bit pattern the way
`struct.pack <f` produces one). -/
def writeField (payload : List Nat) (v : Int) : GameField → List Nat × Bool
  | .health => setHealth payload (v % 4294967296).toNat
  | .weapon name => setWeaponAmmo payload name v
  | .item name => setItemQuantity payload name v

/-- An item field's name token may not contain a NUL byte (names are
ASCII identifiers); no constraint on the other kinds. -/
def noNulItemName : GameField → Prop
  | .item name => ¬ 0 ∈ name
  | _ => True

/-! ### A concrete model compressor/decompressor

zlib itself is outside the repository.  `cmpModel`/`dcpModel` are one
concrete pair satisfying `zlibSpecProps` (spec-modelled: lossless, and
streams begin with the `78 9C` zlib signature): the payload length is
transmitted in unary, and `dcpModel`, like `zlib.decompress`, ignores
trailing bytes after the logical end of the stream. -/

/-- Count the leading `1` bytes. -/
def countOnes : List Nat → Nat
  | 1 :: t => countOnes t + 1
  | _ => 0

/-- Model compressor: `78 9C`, the length in unary `1`s, `00 00`, then
the payload verbatim. -/
def cmpModel (p : List Nat) : List Nat :=
  120 :: 156 :: (List.replicate p.length 1 ++ 0 :: 0 :: p)

/-- Model decompressor (inverse of `cmpModel`, trailing bytes ignored). -/
def dcpModel (b : List Nat) : Option (List Nat) :=
  if b.take 2 = [120, 156] then
    let t := b.drop 2
    let n := countOnes t
    if (t.drop n).take 2 = [0, 0] then some (((t.drop n).drop 2).take n)
    else none
  else none

/-- A decompressor that ignores its input (the claims about the scanning
phase hold for every decompressor). -/
def dcpConst (_ : List Nat) : Option (List Nat) := some [1, 2, 3]

theorem countOnes_cons_one (t : List Nat) :
    countOnes (1 :: t) = countOnes t + 1 := rfl

theorem countOnes_replicate (n : Nat) (rest : List Nat) :
    countOnes (List.replicate n 1 ++ 0 :: rest) = n := by
  induction n with
  | zero => rfl
  | succ n ih =>
    rw [List.replicate_succ, List.cons_append, countOnes_cons_one, ih]

theorem dcpModel_append (p rest : List Nat) :
    dcpModel (cmpModel p ++ rest) = some p := by
  unfold cmpModel dcpModel
  have h1 : ((120 :: 156 :: (List.replicate p.length 1 ++ 0 :: 0 :: p)) ++
      rest).take 2 = [120, 156] := rfl
  have h2 : ((120 :: 156 :: (List.replicate p.length 1 ++ 0 :: 0 :: p)) ++
      rest).drop 2 = List.replicate p.length 1 ++ 0 :: 0 :: (p ++ rest) := by
    simp
  rw [h1, if_pos rfl]
  simp only [h2, countOnes_replicate,
    List.drop_left' (List.length_replicate _ _)]
  rw [if_pos (show List.take 2 (0 :: 0 :: (p ++ rest)) = [0, 0] from rfl)]
  show some ((p ++ rest).take p.length) = some p
  rw [List.take_left' rfl]

theorem dcpModel_cmpModel (p : List Nat) : dcpModel (cmpModel p) = some p := by
  have h := dcpModel_append p []
  rwa [List.append_nil] at h

theorem cmpModel_take_two (p : List Nat) :
    (cmpModel p).take 2 = [120, 156] := rfl

theorem zlibSpecProps_model : zlibSpecProps cmpModel dcpModel :=
  ⟨dcpModel_cmpModel, fun p => Or.inl (cmpModel_take_two p)⟩

theorem length_cmpModel (p : List Nat) :
    (cmpModel p).length = 2 * p.length + 4 := by
  unfold cmpModel
  simp only [List.length_cons, List.length_append, List.length_replicate]
  omega

/-! ### In-place 4-byte overwrites ("splices") -/

theorem length_splice (data repl : List Nat) (s : Nat) (hr : repl.length = 4)
    (hs : s + 4 ≤ data.length) :
    (data.take s ++ repl ++ data.drop (s + 4)).length = data.length := by
  simp only [List.length_append, List.length_take, List.length_drop, hr]
  omega

theorem take_splice (data repl rest : List Nat) (s : Nat)
    (hs : s ≤ data.length) :
    (data.take s ++ repl ++ rest).take s = data.take s := by
  rw [List.append_assoc, List.take_append_eq_append_take, List.take_take,
    Nat.min_self, List.length_take, Nat.min_eq_left hs, Nat.sub_self,
    List.take_zero, List.append_nil]

theorem setSlice_eq_splice (data repl : List Nat) (s : Nat)
    (hr : repl.length = 4) (hs : s + 4 ≤ data.length) :
    pySetSlice data (s : Int) ((s : Int) + 4) repl =
      data.take s ++ repl ++ data.drop (s + 4) := by
  have h := pySetSlice_inbounds data repl s (by omega)
  rw [hr] at h
  have e : ((s : Nat) : Int) + ((4 : Nat) : Int) = ((s : Nat) : Int) + 4 := by
    norm_num
  rw [e] at h
  exact h

theorem slice_splice (data repl : List Nat) (s : Nat) (hr : repl.length = 4)
    (hs : s + 4 ≤ data.length) :
    pySlice (data.take s ++ repl ++ data.drop (s + 4)) (s : Int)
      ((s : Int) + 4) = repl := by
  have base := pySlice_nat (data.take s ++ repl ++ data.drop (s + 4)) s 4
  have e : ((s : Nat) : Int) + ((4 : Nat) : Int) = ((s : Nat) : Int) + 4 := by
    norm_num
  rw [e] at base
  rw [base, length_splice data repl s hr hs, Nat.min_eq_left (by omega)]
  have hl : (data.take s ++ repl).length = s + 4 := by
    simp only [List.length_append, List.length_take, hr]
    omega
  rw [List.take_left' hl, List.drop_left' (by rw [List.length_take]; omega)]

/-! ### Slice-length helpers for the unchecked readers -/

theorem pySlice_short (payload : List Nat) (off : Int) (h0 : 0 < off)
    (h4 : (payload.length : Int) < off + 4) :
    unpack4 (pySlice payload off (off + 4)) = none := by
  apply unpack4_eq_none_of_length
  unfold pySlice
  simp only [if_neg (show ¬ (off < 0) by omega),
    if_neg (show ¬ (off + 4 < 0) by omega), List.length_drop,
    List.length_take]
  omega

theorem unpack4_of_length_eq (bs : List Nat) (h : bs.length = 4) :
    ∃ v, unpack4 bs = some v := by
  rcases bs with _ | ⟨a, _ | ⟨b, _ | ⟨c, _ | ⟨d, _ | ⟨e, t⟩⟩⟩⟩⟩
  · simp at h
  · simp at h
  · simp at h
  · simp at h
  · exact ⟨a + 256 * b + 65536 * c + 16777216 * d, rfl⟩
  · simp at h

theorem pySlice_len4 (payload : List Nat) (off : Int) (h0 : 0 < off)
    (h4 : off + 4 ≤ (payload.length : Int)) :
    (pySlice payload off (off + 4)).length = 4 := by
  unfold pySlice
  simp only [if_neg (show ¬ (off < 0) by omega),
    if_neg (show ¬ (off + 4 < 0) by omega), List.length_drop,
    List.length_take]
  omega

/-! ### Field-offset computation helpers -/

theorem findPropertyOffset_float_eq (payload name : List Nat) (pos : Nat)
    (h : findSub (name ++ [0]) payload = some pos) :
    findPropertyOffset payload name true
      = (((pos + name.length + 27 : Nat)) : Int) := by
  simp only [findPropertyOffset, h]
  norm_num [floatPropertyToken]
  omega

theorem findWeaponOffset_eq (payload name : List Nat) (pos : Nat)
    (h : findSub (name ++ [0]) payload = some pos) :
    findWeaponOffset payload name = (((pos + name.length + 1 : Nat)) : Int) := by
  simp only [findWeaponOffset, h]
  push_cast
  omega

theorem findItemQuantityOffset_eq (payload name : List Nat) (pos q : Nat)
    (hp : findSub (name ++ [0]) payload = some pos)
    (hq : findSubIn quantityToken payload pos (pos + 100) = some q) :
    findItemQuantityOffset payload name = (((q + 34 : Nat)) : Int) := by
  simp only [findItemQuantityOffset, hp, hq]
  push_cast
  omega

/-! ### Shared concrete payloads for witnesses -/

/-- A minimal well-formed health property record:
`HealthValue\x00FloatProperty\x00` + 4 size bytes + 8 metadata bytes +
a 4-byte value slot (42 bytes; the value offset is 38). -/
def healthPayload : List Nat :=
  healthValueName ++ [0] ++ floatPropertyToken ++ List.replicate 12 0
    ++ [0, 0, 0, 0]

/-! ## C1: typed-scalar-property offset computation -/

/-- C1: for every payload and property name, the typed-scalar lookup
returns offset = first-match-position + len(name) + 1 + len(TypeName) + 1
+ 4 + 8 (TypeName = `FloatProperty`, 13 chars, for floats and
`IntProperty`, 11 chars, for ints), and `-1` ("not found") when the name
token does not occur. -/
theorem c1_typed_property_offset (payload name : List Nat) :
    (∀ pos, findSub (name ++ [0]) payload = some pos →
      ((name ++ [0]) <+: payload.drop pos ∧
        ∀ q, q < pos → ¬ (name ++ [0]) <+: payload.drop q) ∧
      findPropertyOffset payload name true
        = (pos : Int) + name.length + 1 + 13 + 1 + 4 + 8 ∧
      findPropertyOffset payload name false
        = (pos : Int) + name.length + 1 + 11 + 1 + 4 + 8) ∧
    (findSub (name ++ [0]) payload = none →
      findPropertyOffset payload name true = -1 ∧
      findPropertyOffset payload name false = -1) := by
  constructor
  · intro pos h
    refine ⟨(findSub_eq_some_iff _ _ _).mp h, ?_, ?_⟩
    · rw [findPropertyOffset_float_eq payload name pos h]
      push_cast
      ring
    · simp only [findPropertyOffset, h]
      norm_num [intPropertyToken]
      omega
  · intro h
    constructor <;> simp [findPropertyOffset, h]

theorem c1_typed_property_offset_witness :
    findPropertyOffset (healthValueName ++ [0]) healthValueName true = 38 ∧
    findPropertyOffset (healthValueName ++ [0]) healthValueName false = 36 ∧
    findPropertyOffset [1, 2, 3] healthValueName true = -1 := by
  have h1 := (c1_typed_property_offset (healthValueName ++ [0])
    healthValueName).1 0 (by rfl)
  have h2 := (c1_typed_property_offset [1, 2, 3] healthValueName).2 (by rfl)
  refine ⟨?_, ?_, h2.1⟩
  · rw [h1.2.1]
    norm_num [healthValueName]
  · rw [h1.2.2]
    norm_num [healthValueName]

/-! ## C3: item-quantity lookup, window and bounds -/

/-- C3: the item-quantity lookup searches for `<name>\x00`, then for
`Quantity\x00` inside the 100-byte window starting at that match, and
addresses the value 34 bytes past the token start; read and write both
fail — leaving the payload untouched — when either search misses or when
offset+4 would pass the payload's end. -/
theorem c3_item_quantity_lookup (payload name : List Nat) (v : Int) :
    (findSub (name ++ [0]) payload = none →
      getItemQuantity payload name = .ok none ∧
      setItemQuantity payload name v = (payload, false)) ∧
    (∀ pos, findSub (name ++ [0]) payload = some pos →
      findSubIn quantityToken payload pos (pos + 100) = none →
      getItemQuantity payload name = .ok none ∧
      setItemQuantity payload name v = (payload, false)) ∧
    (∀ pos q, findSub (name ++ [0]) payload = some pos →
      findSubIn quantityToken payload pos (pos + 100) = some q →
      findItemQuantityOffset payload name = (q : Int) + 34 ∧
      (payload.length < q + 38 →
        getItemQuantity payload name = .ok none ∧
        setItemQuantity payload name v = (payload, false))) := by
  refine ⟨?_, ?_, ?_⟩
  · intro hnone
    have hoff : findItemQuantityOffset payload name = -1 := by
      simp only [findItemQuantityOffset, hnone]
    have hcond : ¬ ((0 : Int) < -1 ∧ (-1 : Int) + 4 ≤ (payload.length : Int)) := by
      intro hc
      exact absurd hc.1 (by norm_num)
    simp only [getItemQuantity, setItemQuantity, hoff]
    rw [if_neg hcond, if_neg hcond]
    exact ⟨rfl, rfl⟩
  · intro pos hp hq
    have hoff : findItemQuantityOffset payload name = -1 := by
      simp only [findItemQuantityOffset, hp, hq]
    have hcond : ¬ ((0 : Int) < -1 ∧ (-1 : Int) + 4 ≤ (payload.length : Int)) := by
      intro hc
      exact absurd hc.1 (by norm_num)
    simp only [getItemQuantity, setItemQuantity, hoff]
    rw [if_neg hcond, if_neg hcond]
    exact ⟨rfl, rfl⟩
  · intro pos q hp hq
    have hoff := findItemQuantityOffset_eq payload name pos q hp hq
    refine ⟨by rw [hoff]; push_cast; ring, ?_⟩
    intro hlen
    have hcond : ¬ (0 < (((q + 34 : Nat)) : Int) ∧
        (((q + 34 : Nat)) : Int) + 4 ≤ (payload.length : Int)) := by
      push_cast
      omega
    simp only [getItemQuantity, setItemQuantity, hoff]
    rw [if_neg hcond, if_neg hcond]
    exact ⟨rfl, rfl⟩

theorem c3_item_quantity_lookup_witness :
    findItemQuantityOffset ([65, 0] ++ quantityToken) [65] = 36 ∧
    getItemQuantity ([65, 0] ++ quantityToken) [65] = .ok none ∧
    setItemQuantity ([65, 0] ++ quantityToken) [65] 5
      = (([65, 0] ++ quantityToken), false) := by
  have h := (c3_item_quantity_lookup ([65, 0] ++ quantityToken) [65] 5).2.2
    0 2 (by rfl) (by rfl)
  have hb := h.2 (by norm_num [quantityToken])
  exact ⟨by rw [h.1]; norm_num, hb.1, hb.2⟩

/-! ## C9: readers without a bounds check -/

/-- C9: after a successful name lookup, `get_health` and
`get_weapon_ammo` decode `payload[offset:offset+4]` with no bounds
check, so a match close to the payload's end makes them hit a
`struct.error` (modelled `.error ()`) instead of returning absent; only
`get_item_quantity` guards `offset + 4 <= len(payload)` and returns
absent (`.ok none`) in that situation, never an error. -/
theorem c9_unchecked_reads (payload name : List Nat) :
    (0 < findPropertyOffset payload healthValueName true →
      (payload.length : Int) < findPropertyOffset payload healthValueName true + 4 →
      getHealth payload = .error ()) ∧
    (0 < findWeaponOffset payload name →
      (payload.length : Int) < findWeaponOffset payload name + 4 →
      getWeaponAmmo payload name = .error ()) ∧
    getItemQuantity payload name ≠ .error () ∧
    (0 < findItemQuantityOffset payload name →
      (payload.length : Int) < findItemQuantityOffset payload name + 4 →
      getItemQuantity payload name = .ok none) := by
  refine ⟨?_, ?_, ?_, ?_⟩
  · intro h0 h4
    simp only [getHealth]
    rw [if_pos h0, pySlice_short payload _ h0 h4]
  · intro h0 h4
    simp only [getWeaponAmmo]
    rw [if_pos h0, pySlice_short payload _ h0 h4]
  · simp only [getItemQuantity]
    by_cases hc : 0 < findItemQuantityOffset payload name ∧
        findItemQuantityOffset payload name + 4 ≤ (payload.length : Int)
    · rw [if_pos hc]
      obtain ⟨v, hv⟩ := unpack4_of_length_eq _
        (pySlice_len4 payload _ hc.1 hc.2)
      rw [hv]
      intro hcontra
      cases hcontra
    · rw [if_neg hc]
      intro hcontra
      cases hcontra
  · intro h0 h4
    simp only [getItemQuantity]
    rw [if_neg]
    intro hc
    omega

theorem c9_unchecked_reads_witness :
    getHealth (healthValueName ++ [0]) = .error () ∧
    getWeaponAmmo [65, 0, 7] [65] = .error () ∧
    getItemQuantity ([65, 0] ++ quantityToken) [65] ≠ .error () ∧
    getItemQuantity ([65, 0] ++ quantityToken) [65] = .ok none := by
  refine ⟨?_, ?_, ?_, ?_⟩
  · exact (c9_unchecked_reads (healthValueName ++ [0]) [65]).1
      (by decide) (by decide)
  · exact (c9_unchecked_reads [65, 0, 7] [65]).2.1 (by decide) (by decide)
  · exact (c9_unchecked_reads ([65, 0] ++ quantityToken) [65]).2.2.1
  · exact (c9_unchecked_reads ([65, 0] ++ quantityToken) [65]).2.2.2
      (by decide) (by decide)

/-! ## C4: writes as fixed-width in-place overwrites -/

theorem length_pySetSlice4_int (data repl : List Nat) (off : Int)
    (hr : repl.length = 4) (h0 : 0 < off)
    (hb : off + 4 ≤ (data.length : Int)) :
    (pySetSlice data off (off + 4) repl).length = data.length := by
  have he : off = ((off.toNat : Nat) : Int) := by omega
  rw [he, setSlice_eq_splice data repl off.toNat hr (by omega)]
  exact length_splice data repl off.toNat hr (by omega)

/-- C4 (amended): a performed write overwrites exactly 4 bytes in place
and preserves the payload length whenever the computed offset + 4 fits
inside the payload; `set_item_quantity` checks this itself, while
`set_health` / `set_weapon_ammo` need it as a precondition (without it
they can grow the payload, see the counterexample). -/
theorem c4_fixed_width_writes (payload name : List Nat) (bits : Nat)
    (v w : Int) :
    ((0 < findPropertyOffset payload healthValueName true →
        findPropertyOffset payload healthValueName true + 4
          ≤ (payload.length : Int)) →
      (setHealth payload bits).1.length = payload.length) ∧
    ((0 < findWeaponOffset payload name →
        findWeaponOffset payload name + 4 ≤ (payload.length : Int)) →
      (setWeaponAmmo payload name v).1.length = payload.length) ∧
    (setItemQuantity payload name w).1.length = payload.length := by
  refine ⟨?_, ?_, ?_⟩
  · intro hb
    simp only [setHealth]
    by_cases h0 : 0 < findPropertyOffset payload healthValueName true
    · rw [if_pos h0]
      exact length_pySetSlice4_int payload _ _ rfl h0 (hb h0)
    · rw [if_neg h0]
  · intro hb
    simp only [setWeaponAmmo]
    by_cases h0 : 0 < findWeaponOffset payload name
    · rw [if_pos h0]
      exact length_pySetSlice4_int payload _ _ rfl h0 (hb h0)
    · rw [if_neg h0]
  · simp only [setItemQuantity]
    by_cases hc : 0 < findItemQuantityOffset payload name ∧
        findItemQuantityOffset payload name + 4 ≤ (payload.length : Int)
    · rw [if_pos hc]
      exact length_pySetSlice4_int payload _ _ rfl hc.1 hc.2
    · rw [if_neg hc]

/-- C4 counterexample: on the 12-byte payload `HealthValue\x00` the
health lookup succeeds (offset 38 ≥ payload end), and `set_health`
appends 4 bytes — the payload grows from 12 to 16 bytes while the write
still reports success, so writes are not always length-preserving. -/
theorem c4_counterexample :
    (healthValueName ++ [0] : List Nat).length = 12 ∧
    (setHealth (healthValueName ++ [0]) 0).1.length = 16 ∧
    (setHealth (healthValueName ++ [0]) 0).2 = true :=
  ⟨rfl, rfl, rfl⟩

theorem c4_fixed_width_writes_witness :
    (setHealth healthPayload 77).1.length = 42 ∧
    (setWeaponAmmo [65, 0, 1, 2, 3, 4] [65] 9).1.length = 6 ∧
    (setItemQuantity [65, 0] [66] 9).1.length = 2 := by
  refine ⟨?_, ?_, ?_⟩
  · have h := (c4_fixed_width_writes healthPayload [66] 77 9 9).1 (by decide)
    rw [h]
    rfl
  · have h := (c4_fixed_width_writes [65, 0, 1, 2, 3, 4] [65] 9 9 9).2.1
      (by decide)
    rw [h]
    rfl
  · have h := (c4_fixed_width_writes [65, 0] [66] 9 9 9).2.2
    rw [h]
    rfl

/-! ## C8: rebuilt container layout -/

/-- C8: `save` emits exactly
`[header][compressedSize:u32][uncompressedSize:u32][compressed bytes]`:
the header is passed through byte-for-byte, and the two little-endian
size fields decode to the true byte lengths of the fresh compression
output and the current payload. -/
theorem c8_rebuild_layout (cmp : List Nat → List Nat)
    (header payload : List Nat) :
    save cmp header payload
      = header ++ encodeU32 (cmp payload).length ++ encodeU32 payload.length
        ++ cmp payload ∧
    (save cmp header payload).take header.length = header ∧
    ((cmp payload).length < 4294967296 →
      unpack4 (((save cmp header payload).drop header.length).take 4)
        = some (cmp payload).length) ∧
    (payload.length < 4294967296 →
      unpack4 (((save cmp header payload).drop (header.length + 4)).take 4)
        = some payload.length) ∧
    (save cmp header payload).drop (header.length + 8) = cmp payload := by
  refine ⟨rfl, ?_, ?_, ?_, ?_⟩
  · simp only [save, List.append_assoc]
    exact List.take_left' rfl
  · intro h
    simp only [save, List.append_assoc]
    rw [List.drop_left' rfl, List.take_left' (length_encodeU32 _),
      unpack4_encodeU32_of_lt _ h]
  · intro h
    simp only [save, List.append_assoc]
    rw [List.drop_append 4, List.drop_left' (length_encodeU32 _),
      List.take_left' (length_encodeU32 _), unpack4_encodeU32_of_lt _ h]
  · simp only [save]
    refine List.drop_left' ?_
    simp only [List.length_append, length_encodeU32]

theorem c8_rebuild_layout_witness :
    (save cmpModel [1, 2] [3, 4]).take 2 = [1, 2] ∧
    unpack4 (((save cmpModel [1, 2] [3, 4]).drop 2).take 4) = some 8 ∧
    unpack4 (((save cmpModel [1, 2] [3, 4]).drop 6).take 4) = some 2 ∧
    (save cmpModel [1, 2] [3, 4]).drop 10 = cmpModel [3, 4] := by
  have h := c8_rebuild_layout cmpModel [1, 2] [3, 4]
  exact ⟨h.2.1, h.2.2.1 (by norm_num [length_cmpModel]),
    h.2.2.2.1 (by norm_num), h.2.2.2.2⟩

/-! ## C2: locating the compressed stream -/

theorem sigAt_bound (data : List Nat) (i : Nat) (h : sigAt data i = true) :
    i + 2 ≤ data.length := by
  unfold sigAt at h
  rw [decide_eq_true_iff] at h
  have hlen : ((data.drop i).take 2).length = 2 := by
    rcases h with h | h <;> rw [h] <;> rfl
  rw [List.length_take, List.length_drop] at hlen
  omega

theorem pySlice_eq_drop_take (data : List Nat) (s len : Nat)
    (hb : s + len ≤ data.length) :
    pySlice data (s : Int) ((s : Int) + (len : Int))
      = (data.drop s).take len := by
  rw [pySlice_nat, Nat.min_eq_left hb]
  exact (List.take_drop s len data).symm

theorem pySlice_from (data : List Nat) (i c : Nat) :
    pySlice data (i : Int) ((i : Int) + (c : Int)) = (data.drop i).take c := by
  rw [pySlice_nat]
  rcases Nat.le_total (i + c) data.length with hle | hle
  · rw [Nat.min_eq_left hle]
    exact (List.take_drop i c data).symm
  · rw [Nat.min_eq_right hle, List.take_length]
    exact (List.take_of_length_le (by rw [List.length_drop]; omega)).symm

theorem pySlice_prefix_eq (data : List Nat) (e : Nat) (he : e ≤ data.length) :
    pySlice data 0 ((e : Nat) : Int) = data.take e := by
  unfold pySlice
  simp only [if_neg (show ¬ ((0 : Int) < 0) by omega),
    if_neg (show ¬ (((e : Nat) : Int) < 0) by omega)]
  have e1 : (min ((e : Nat) : Int) ((data.length : Nat) : Int)).toNat = e := by
    omega
  have e2 : (min (0 : Int) ((data.length : Nat) : Int)).toNat = 0 := by omega
  rw [e1, e2, List.drop_zero]

/-- The behaviour C2 asserts at a first signature match `i`: the two
size fields are read as little-endian u32 values at genuine file
offsets `i-8` and `i-4`, everything before `i-8` is kept as the header,
and the decompressor receives the `compressedSize`-byte slice starting
at `i`. -/
def c2LoadShape (dcp : List Nat → Option (List Nat)) (data : List Nat)
    (i : Nat) : Prop :=
  ∃ c u, unpack4 ((data.drop (i - 8)).take 4) = some c ∧
    unpack4 ((data.drop (i - 4)).take 4) = some u ∧
    ((dcp ((data.drop i).take c) = none ∧
        load dcp data = .error .corrupt) ∨
      (∃ dec, dcp ((data.drop i).take c) = some dec ∧
        load dcp data = .ok ⟨data.take (i - 8), i, c, u, dec⟩))

/-- C2 (amended): the scan covers offsets 0..299; with no signature pair
in that window `load` fails with NotFound for every decompressor,
without any decompression attempt; at a first match at offset `i`
satisfying `8 ≤ i` (which the code never checks) the sizes come from the
little-endian u32 fields at `i-8` and `i-4`, the header is everything
before `i-8`, and exactly the `compressedSize`-byte slice at `i` is
decompressed. -/
theorem c2_locate (data : List Nat) :
    (firstSig data = none → ∀ dcp, load dcp data = .error .notFound) ∧
    (∀ dcp i, firstSig data = some i → 8 ≤ i → c2LoadShape dcp data i) := by
  constructor
  · intro h dcp
    simp only [load, h]
  · intro dcp i hfind hi
    have hlen : i + 2 ≤ data.length := sigAt_bound data i (List.find?_some hfind)
    have e1 : (i : Int) - 8 = ((i - 8 : Nat) : Int) := by omega
    have hs1 : pySlice data ((i : Int) - 8) ((i : Int) - 4)
        = (data.drop (i - 8)).take 4 := by
      rw [e1, show (i : Int) - 4 = ((i - 8 : Nat) : Int) + ((4 : Nat) : Int)
        by push_cast; omega]
      exact pySlice_eq_drop_take data (i - 8) 4 (by omega)
    have hs2 : pySlice data ((i : Int) - 4) (i : Int)
        = (data.drop (i - 4)).take 4 := by
      rw [show (i : Int) - 4 = ((i - 4 : Nat) : Int) by omega,
        show (i : Int) = ((i - 4 : Nat) : Int) + ((4 : Nat) : Int)
          by push_cast; omega]
      exact pySlice_eq_drop_take data (i - 4) 4 (by omega)
    obtain ⟨c, hc⟩ := unpack4_of_length_eq ((data.drop (i - 8)).take 4)
      (by simp only [List.length_take, List.length_drop]; omega)
    obtain ⟨u, hu⟩ := unpack4_of_length_eq ((data.drop (i - 4)).take 4)
      (by simp only [List.length_take, List.length_drop]; omega)
    have hload : load dcp data =
        match dcp ((data.drop i).take c) with
        | none => Except.error LoadError.corrupt
        | some dec =>
          Except.ok ⟨data.take (i - 8), i, c, u, dec⟩ := by
      simp only [load, hfind, hs1, hs2, hc, hu, pySlice_from]
      rw [e1, pySlice_prefix_eq data (i - 8) (by omega)]
    refine ⟨c, u, hc, hu, ?_⟩
    cases hdcp : dcp ((data.drop i).take c) with
    | none =>
      left
      refine ⟨rfl, ?_⟩
      rw [hload, hdcp]
    | some dec =>
      right
      refine ⟨dec, rfl, ?_⟩
      rw [hload, hdcp]

/-- C2 counterexample: on a container whose first signature pair sits at
offset 0 the sizes are not read from offsets `i-8`/`i-4` (there are no
such offsets): the actual `load` hits an empty end-relative slice and
fails with a struct decoding error, unlike every behaviour the claim
allows. -/
theorem c2_counterexample :
    firstSig [120, 156, 0, 0, 0, 0, 0, 0, 1, 0, 0, 0] = some 0 ∧
    ¬ c2LoadShape dcpConst [120, 156, 0, 0, 0, 0, 0, 0, 1, 0, 0, 0] 0 := by
  refine ⟨rfl, ?_⟩
  rintro ⟨c, u, hc, hu, hrest⟩
  have hload : load dcpConst [120, 156, 0, 0, 0, 0, 0, 0, 1, 0, 0, 0]
      = .error .badStruct := rfl
  rcases hrest with ⟨h1, h2⟩ | ⟨dec, h1, h2⟩
  · rw [hload] at h2
    injection h2 with h3
    exact absurd h3 (by decide)
  · rw [hload] at h2
    cases h2

theorem c2_locate_witness :
    c2LoadShape dcpConst [2, 0, 0, 0, 9, 0, 0, 0, 120, 156, 7] 8 ∧
    load dcpConst [1, 2, 3] = .error .notFound := by
  constructor
  · exact (c2_locate [2, 0, 0, 0, 9, 0, 0, 0, 120, 156, 7]).2 dcpConst 8
      (by rfl) (by norm_num)
  · exact (c2_locate [1, 2, 3]).1 (by rfl) dcpConst

/-! ## C10: signature matches at offsets below 8 -/

/-- C10 (amended): when the first signature pair sits at an offset
`i < 8`, `load` does not fail with NotFound — the size-field index
`i - 8` is negative, so the size slices are taken relative to the end
of the file — but those end-relative slices are empty or shorter than
4 bytes, so `load` stops with a struct decoding error rather than
completing with end-of-file sizes; for `i ≤ 3` (and a file of at least
`8 - i` bytes) the first size slice is literally the 4 bytes starting
`8 - i` bytes before the end of the file. -/
theorem c10_early_signature (dcp : List Nat → Option (List Nat))
    (data : List Nat) (i : Nat) (hfind : firstSig data = some i)
    (hi : i < 8) :
    load dcp data = .error .badStruct ∧
    load dcp data ≠ .error .notFound ∧
    (i ≤ 3 → 8 ≤ data.length + i →
      pySlice data ((i : Int) - 8) ((i : Int) - 4)
        = (data.drop (data.length + i - 8)).take 4) := by
  have hlen : i + 2 ≤ data.length := sigAt_bound data i (List.find?_some hfind)
  have hmain : load dcp data = .error .badStruct := by
    simp only [load, hfind]
    by_cases h1 : 4 ≤ i
    · have hnone : unpack4 (pySlice data ((i : Int) - 8) ((i : Int) - 4))
          = none := by
        apply unpack4_eq_none_of_length
        unfold pySlice
        simp only [if_pos (show (i : Int) - 8 < 0 by omega),
          if_neg (show ¬ ((i : Int) - 4 < 0) by omega), List.length_drop,
          List.length_take]
        omega
      simp only [hnone]
    · cases hc : unpack4 (pySlice data ((i : Int) - 8) ((i : Int) - 4)) with
      | none => simp only [hc]
      | some c =>
        have hnone2 : unpack4 (pySlice data ((i : Int) - 4) (i : Int))
            = none := by
          apply unpack4_eq_none_of_length
          unfold pySlice
          simp only [if_pos (show (i : Int) - 4 < 0 by omega),
            if_neg (show ¬ ((i : Int) < 0) by omega), List.length_drop,
            List.length_take]
          omega
        simp only [hc, hnone2]
  refine ⟨hmain, ?_, ?_⟩
  · intro hcontra
    rw [hmain] at hcontra
    injection hcontra with h2
    exact absurd h2 (by decide)
  · intro hi3 hL
    unfold pySlice
    simp only [if_pos (show (i : Int) - 8 < 0 by omega),
      if_pos (show (i : Int) - 4 < 0 by omega)]
    have es : (max (((data.length : Nat) : Int) + ((i : Int) - 8)) 0).toNat
        = data.length + i - 8 := by omega
    have ee : (max (((data.length : Nat) : Int) + ((i : Int) - 4)) 0).toNat
        = data.length + i - 4 := by omega
    rw [es, ee, List.take_drop,
      show data.length + i - 8 + 4 = data.length + i - 4 by omega]

/-- C10 counterexample: with the first signature pair at offset 0,
`load` does not complete with end-of-file sizes and a mis-sliced
header — it raises a struct decoding error (the second size slice
`data[-4:0]` is empty), so it fails rather than "not fail". -/
theorem c10_counterexample :
    firstSig [120, 156, 9, 9, 9, 9, 9, 9, 1, 0, 0, 0] = some 0 ∧
    load dcpConst [120, 156, 9, 9, 9, 9, 9, 9, 1, 0, 0, 0]
      = .error .badStruct ∧
    (load dcpConst [120, 156, 9, 9, 9, 9, 9, 9, 1, 0, 0, 0]).isOk
      = false ∧
    pySlice [120, 156, 9, 9, 9, 9, 9, 9, 1, 0, 0, 0] (-4) 0 = [] :=
  ⟨rfl, rfl, rfl, rfl⟩

theorem c10_early_signature_witness :
    load dcpConst [120, 156, 9, 9, 9, 9, 9, 9, 1, 0, 0, 0]
      = .error .badStruct ∧
    pySlice [120, 156, 9, 9, 9, 9, 9, 9, 1, 0, 0, 0]
      (((0 : Nat) : Int) - 8) (((0 : Nat) : Int) - 4) = [9, 9, 9, 9] := by
  have h := c10_early_signature dcpConst
    [120, 156, 9, 9, 9, 9, 9, 9, 1, 0, 0, 0] 0 (by rfl) (by norm_num)
  refine ⟨h.1, ?_⟩
  rw [h.2.2 (by norm_num) (by norm_num)]
  rfl

/-! ## C5: reading a field right after writing it -/

theorem getElem_idx_eq (l : List Nat) (i j : Nat) (hij : i = j)
    (hi : i < l.length) (hj : j < l.length) : l[i] = l[j] := by
  subst hij
  rfl

/-- With a NUL-free item name, the `Quantity\x00` token found in the
window cannot end before the item's name token does (the token's NUL at
`q+8` would have to be a name byte), so the value slot at `q+34` lies
past the whole name token. -/
theorem item_token_before_qty (payload name : List Nat) (pos q : Nat)
    (hnn : ¬ 0 ∈ name)
    (hfind : findSub (name ++ [0]) payload = some pos)
    (hq : findSubIn quantityToken payload pos (pos + 100) = some q) :
    pos + name.length + 1 ≤ q + 9 := by
  obtain ⟨hsq, hstop, hlenq, hpreq⟩ := findSubIn_facts quantityToken payload
    pos (pos + 100) q (by decide) hq
  by_contra hcon
  push_neg at hcon
  have hlen9 : quantityToken.length = 9 := rfl
  rw [hlen9] at hlenq
  have hj : q + 8 - pos < name.length := by omega
  have hjeq : pos + (q + 8 - pos) = q + 8 := by omega
  have hb8 : q + 8 < payload.length := by omega
  have h8 := prefix_drop_getElem quantityToken payload q 8 hpreq
    (by decide) hb8
  have hprew := ((findSub_eq_some_iff (name ++ [0]) payload pos).mp hfind).1
  have hbj : pos + (q + 8 - pos) < payload.length := by omega
  have hlb : q + 8 - pos < (name ++ [0]).length := by
    rw [List.length_append]
    simp only [List.length_cons, List.length_nil]
    omega
  have hj2 := prefix_drop_getElem (name ++ [0]) payload pos (q + 8 - pos)
    hprew hlb hbj
  have hpl : payload[q + 8] = payload[pos + (q + 8 - pos)] :=
    getElem_idx_eq payload _ _ hjeq.symm hb8 hbj
  have hnz : (name ++ [0])[q + 8 - pos] = name[q + 8 - pos] :=
    List.getElem_append_left hj
  have hzero : name[q + 8 - pos] = 0 := by
    rw [← hnz, ← hj2, ← hpl, h8]
    rfl
  exact hnn (hzero ▸ List.getElem_mem hj)

/-- C5: when a field's lookup succeeds and its 4-byte value slot lies in
bounds, reading immediately after writing value V returns exactly V:
the health float32 (represented by its 32-bit pattern), and the int32
weapon-ammo and item-quantity fields for int32-range V (item names are
NUL-free ASCII identifiers). -/
theorem c5_read_after_write (payload name : List Nat) (bits : Nat)
    (v : Int) :
    (∀ pos, findSub (healthValueName ++ [0]) payload = some pos →
      pos + 42 ≤ payload.length → bits < 4294967296 →
      getHealth (setHealth payload bits).1 = .ok (some bits)) ∧
    (∀ pos, findSub (name ++ [0]) payload = some pos →
      pos + name.length + 5 ≤ payload.length →
      -2147483648 ≤ v → v < 2147483648 →
      getWeaponAmmo (setWeaponAmmo payload name v).1 name = .ok (some v)) ∧
    (∀ pos q, findSub (name ++ [0]) payload = some pos →
      findSubIn quantityToken payload pos (pos + 100) = some q →
      q + 38 ≤ payload.length → ¬ 0 ∈ name →
      -2147483648 ≤ v → v < 2147483648 →
      getItemQuantity (setItemQuantity payload name v).1 name
        = .ok (some v)) := by
  refine ⟨?_, ?_, ?_⟩
  · intro pos hfind hb hbits
    have hoff38 : findPropertyOffset payload healthValueName true
        = ((pos + 38 : Nat) : Int) := by
      rw [findPropertyOffset_float_eq payload healthValueName pos hfind,
        show healthValueName.length = 11 from rfl]
    have hset : setHealth payload bits
        = (payload.take (pos + 38) ++ encodeU32 bits
            ++ payload.drop (pos + 38 + 4), true) := by
      simp only [setHealth, hoff38]
      rw [if_pos (by omega),
        setSlice_eq_splice payload (encodeU32 bits) (pos + 38) rfl (by omega)]
    rw [hset]
    have htake : (payload.take (pos + 38) ++ encodeU32 bits
        ++ payload.drop (pos + 38 + 4)).take (pos + 38)
        = payload.take (pos + 38) :=
      take_splice payload (encodeU32 bits) _ (pos + 38) (by omega)
    have hfind' : findSub (healthValueName ++ [0])
        (payload.take (pos + 38) ++ encodeU32 bits
          ++ payload.drop (pos + 38 + 4)) = some pos :=
      findSub_stable (healthValueName ++ [0]) payload _ (pos + 38) pos htake
        hfind (by simp only [List.length_append, List.length_cons,
          List.length_nil, healthValueName]; omega)
    have hoff' : findPropertyOffset (payload.take (pos + 38) ++ encodeU32 bits
        ++ payload.drop (pos + 38 + 4)) healthValueName true
        = ((pos + 38 : Nat) : Int) := by
      rw [findPropertyOffset_float_eq _ healthValueName pos hfind',
        show healthValueName.length = 11 from rfl]
    simp only [getHealth, hoff']
    rw [if_pos (by omega),
      slice_splice payload (encodeU32 bits) (pos + 38) rfl (by omega),
      unpack4_encodeU32_of_lt bits hbits]
  · intro pos hfind hb hv1 hv2
    have hoffW : findWeaponOffset payload name
        = ((pos + name.length + 1 : Nat) : Int) :=
      findWeaponOffset_eq payload name pos hfind
    have hset : setWeaponAmmo payload name v
        = (payload.take (pos + name.length + 1) ++ encodeI32 v
            ++ payload.drop (pos + name.length + 1 + 4), true) := by
      simp only [setWeaponAmmo, hoffW]
      rw [if_pos (by omega), setSlice_eq_splice payload (encodeI32 v)
        (pos + name.length + 1) rfl (by omega)]
    rw [hset]
    have htake : (payload.take (pos + name.length + 1) ++ encodeI32 v
        ++ payload.drop (pos + name.length + 1 + 4)).take
          (pos + name.length + 1)
        = payload.take (pos + name.length + 1) :=
      take_splice payload (encodeI32 v) _ (pos + name.length + 1) (by omega)
    have hfind' : findSub (name ++ [0])
        (payload.take (pos + name.length + 1) ++ encodeI32 v
          ++ payload.drop (pos + name.length + 1 + 4)) = some pos :=
      findSub_stable (name ++ [0]) payload _ (pos + name.length + 1) pos htake
        hfind (by rw [List.length_append]; simp only [List.length_cons,
          List.length_nil]; omega)
    have hoff' : findWeaponOffset (payload.take (pos + name.length + 1)
        ++ encodeI32 v ++ payload.drop (pos + name.length + 1 + 4)) name
        = ((pos + name.length + 1 : Nat) : Int) :=
      findWeaponOffset_eq _ name pos hfind'
    simp only [getWeaponAmmo, hoff']
    rw [if_pos (by omega), slice_splice payload (encodeI32 v)
      (pos + name.length + 1) rfl (by omega), unpack4_encodeI32]
    show Except.ok (some (toI32 (v % 4294967296).toNat)) = .ok (some v)
    rw [toI32_emod v hv1 hv2]
  · intro pos q hfind hq hb hnn hv1 hv2
    have hbefore := item_token_before_qty payload name pos q hnn hfind hq
    have hoffI : findItemQuantityOffset payload name
        = ((q + 34 : Nat) : Int) :=
      findItemQuantityOffset_eq payload name pos q hfind hq
    have hset : setItemQuantity payload name v
        = (payload.take (q + 34) ++ encodeI32 v
            ++ payload.drop (q + 34 + 4), true) := by
      simp only [setItemQuantity, hoffI]
      rw [if_pos ⟨by omega, by push_cast; omega⟩,
        setSlice_eq_splice payload (encodeI32 v) (q + 34) rfl (by omega)]
    rw [hset]
    have htake : (payload.take (q + 34) ++ encodeI32 v
        ++ payload.drop (q + 34 + 4)).take (q + 34)
        = payload.take (q + 34) :=
      take_splice payload (encodeI32 v) _ (q + 34) (by omega)
    have hfind' : findSub (name ++ [0]) (payload.take (q + 34) ++ encodeI32 v
        ++ payload.drop (q + 34 + 4)) = some pos :=
      findSub_stable (name ++ [0]) payload _ (q + 34) pos htake hfind
        (by rw [List.length_append]; simp only [List.length_cons,
          List.length_nil]; omega)
    have hq' : findSubIn quantityToken (payload.take (q + 34) ++ encodeI32 v
        ++ payload.drop (q + 34 + 4)) pos (pos + 100) = some q :=
      findSubIn_stable quantityToken payload _ pos (pos + 100) q (q + 34)
        htake hq (by rw [show quantityToken.length = 9 from rfl]; omega)
    have hoff' : findItemQuantityOffset (payload.take (q + 34) ++ encodeI32 v
        ++ payload.drop (q + 34 + 4)) name = ((q + 34 : Nat) : Int) :=
      findItemQuantityOffset_eq _ name pos q hfind' hq'
    have hlen' : (payload.take (q + 34) ++ encodeI32 v
        ++ payload.drop (q + 34 + 4)).length = payload.length :=
      length_splice payload (encodeI32 v) (q + 34) rfl (by omega)
    simp only [getItemQuantity, hoff']
    rw [if_pos ⟨by omega, by rw [hlen']; push_cast; omega⟩,
      slice_splice payload (encodeI32 v) (q + 34) rfl (by omega),
      unpack4_encodeI32]
    show Except.ok (some (toI32 (v % 4294967296).toNat)) = .ok (some v)
    rw [toI32_emod v hv1 hv2]

theorem c5_read_after_write_witness :
    getHealth (setHealth healthPayload 77).1 = .ok (some 77) ∧
    getWeaponAmmo (setWeaponAmmo [65, 0, 1, 2, 3, 4] [65] (-5)).1 [65]
      = .ok (some (-5)) ∧
    getItemQuantity (setItemQuantity ([65, 0] ++ quantityToken
      ++ List.replicate 25 7 ++ [9, 9, 9, 9]) [65] 123456).1 [65]
      = .ok (some 123456) := by
  refine ⟨?_, ?_, ?_⟩
  · exact (c5_read_after_write healthPayload [65] 77 0).1 0 (by rfl)
      (by decide) (by decide)
  · exact (c5_read_after_write [65, 0, 1, 2, 3, 4] [65] 0 (-5)).2.1 0 (by rfl)
      (by decide) (by decide) (by decide)
  · exact (c5_read_after_write ([65, 0] ++ quantityToken
      ++ List.replicate 25 7 ++ [9, 9, 9, 9]) [65] 0 123456).2.2 0 2 (by rfl)
      (by rfl) (by decide) (by decide) (by decide) (by decide)

/-! ## C6: writes to one field vs reads of another -/

theorem findPropertyOffset_pos_inv (payload name : List Nat) (isF : Bool)
    (h : 0 < findPropertyOffset payload name isF) :
    ∃ pos, findSub (name ++ [0]) payload = some pos := by
  unfold findPropertyOffset at h
  cases hfs : findSub (name ++ [0]) payload with
  | none =>
    rw [hfs] at h
    norm_num at h
  | some pos => exact ⟨pos, rfl⟩

theorem findWeaponOffset_pos_inv (payload name : List Nat)
    (h : 0 < findWeaponOffset payload name) :
    ∃ pos, findSub (name ++ [0]) payload = some pos := by
  unfold findWeaponOffset at h
  cases hfs : findSub (name ++ [0]) payload with
  | none =>
    rw [hfs] at h
    norm_num at h
  | some pos => exact ⟨pos, rfl⟩

theorem findItemQuantityOffset_pos_inv (payload name : List Nat)
    (h : 0 < findItemQuantityOffset payload name) :
    ∃ pos q, findSub (name ++ [0]) payload = some pos ∧
      findSubIn quantityToken payload pos (pos + 100) = some q := by
  unfold findItemQuantityOffset at h
  cases hfs : findSub (name ++ [0]) payload with
  | none =>
    rw [hfs] at h
    norm_num at h
  | some pos =>
    simp only [hfs] at h
    cases hq : findSubIn quantityToken payload pos (pos + 100) with
    | none =>
      rw [hq] at h
      norm_num at h
    | some q => exact ⟨pos, q, rfl, hq⟩

theorem pySetSlice4_int (data repl : List Nat) (off : Int)
    (hr : repl.length = 4) (h0 : 0 < off)
    (hb : off + 4 ≤ (data.length : Int)) :
    pySetSlice data off (off + 4) repl
      = data.take off.toNat ++ repl ++ data.drop (off.toNat + 4) := by
  rw [show off = ((off.toNat : Nat) : Int) by omega]
  exact setSlice_eq_splice data repl off.toNat hr (by omega)

theorem pySlice4_eq_drop_take (data : List Nat) (s : Nat)
    (hb : s + 4 ≤ data.length) :
    pySlice data (s : Int) ((s : Int) + 4) = (data.drop s).take 4 := by
  have h := pySlice_eq_drop_take data s 4 hb
  rw [show ((s : Nat) : Int) + ((4 : Nat) : Int) = ((s : Nat) : Int) + 4
    by norm_num] at h
  exact h

/-- Two byte buffers that agree on their first `n` bytes yield the same
in-bounds 4-byte slice below `n`. -/
theorem pySlice4_take_agree (data data' : List Nat) (s n : Nat)
    (hagree : data'.take n = data.take n) (hb : s + 4 ≤ n)
    (hn : n ≤ data.length) (hn' : n ≤ data'.length) :
    pySlice data' (s : Int) ((s : Int) + 4)
      = pySlice data (s : Int) ((s : Int) + 4) := by
  rw [pySlice4_eq_drop_take data' s (by omega),
    pySlice4_eq_drop_take data s (by omega), List.take_drop, List.take_drop]
  congr 1
  calc data'.take (s + 4) = (data'.take n).take (s + 4) := by
        rw [List.take_take, Nat.min_eq_left (by omega)]
    _ = (data.take n).take (s + 4) := by rw [hagree]
    _ = data.take (s + 4) := by
        rw [List.take_take, Nat.min_eq_left (by omega)]

/-- C6 (amended): an in-bounds write to field A cannot change the read
of a field B that was located with its whole value slot before A's
written region (B's offset + 4 ≤ A's offset); for overlapping or later
fields interference is possible (see the counterexample, where two
distinct weapon names address overlapping bytes). -/
theorem c6_frame (payload : List Nat) (A B : GameField) (v : Int)
    (hfound : 0 < fieldOffset payload B)
    (h0A : 0 < fieldOffset payload A)
    (h4A : fieldOffset payload A + 4 ≤ (payload.length : Int))
    (hBA : fieldOffset payload B + 4 ≤ fieldOffset payload A)
    (hnul : noNulItemName B) :
    readField (writeField payload v A).1 B = readField payload B := by
  obtain ⟨repl, hr4, hwrite⟩ : ∃ repl : List Nat, repl.length = 4 ∧
      (writeField payload v A).1
        = payload.take (fieldOffset payload A).toNat ++ repl
          ++ payload.drop ((fieldOffset payload A).toNat + 4) := by
    cases A with
    | health =>
      refine ⟨encodeU32 (v % 4294967296).toNat, rfl, ?_⟩
      simp only [fieldOffset] at h0A h4A
      simp only [writeField, setHealth, fieldOffset]
      rw [if_pos h0A]
      exact pySetSlice4_int payload _ _ rfl h0A h4A
    | weapon nm =>
      refine ⟨encodeI32 v, rfl, ?_⟩
      simp only [fieldOffset] at h0A h4A
      simp only [writeField, setWeaponAmmo, fieldOffset]
      rw [if_pos h0A]
      exact pySetSlice4_int payload _ _ rfl h0A h4A
    | item nm =>
      refine ⟨encodeI32 v, rfl, ?_⟩
      simp only [fieldOffset] at h0A h4A
      simp only [writeField, setItemQuantity, fieldOffset]
      rw [if_pos ⟨h0A, h4A⟩]
      exact pySetSlice4_int payload _ _ rfl h0A h4A
  rw [hwrite]
  set offA := fieldOffset payload A with hoffAdef
  have hsA4 : offA.toNat + 4 ≤ payload.length := by omega
  have htakeA : (payload.take offA.toNat ++ repl
      ++ payload.drop (offA.toNat + 4)).take offA.toNat
      = payload.take offA.toNat :=
    take_splice payload repl _ _ (by omega)
  have hlenA : (payload.take offA.toNat ++ repl
      ++ payload.drop (offA.toNat + 4)).length = payload.length :=
    length_splice payload repl _ hr4 hsA4
  cases B with
  | health =>
    simp only [fieldOffset] at hfound hBA
    obtain ⟨posB, hfsB⟩ :=
      findPropertyOffset_pos_inv payload healthValueName true hfound
    have hoffB : findPropertyOffset payload healthValueName true
        = ((posB + 38 : Nat) : Int) := by
      rw [findPropertyOffset_float_eq payload healthValueName posB hfsB,
        show healthValueName.length = 11 from rfl]
    rw [hoffB] at hBA
    have hfsB' : findSub (healthValueName ++ [0])
        (payload.take offA.toNat ++ repl
          ++ payload.drop (offA.toNat + 4)) = some posB :=
      findSub_stable _ payload _ offA.toNat posB htakeA hfsB
        (by simp only [List.length_append, List.length_cons,
          List.length_nil, healthValueName]; omega)
    have hoffB' : findPropertyOffset (payload.take offA.toNat ++ repl
        ++ payload.drop (offA.toNat + 4)) healthValueName true
        = ((posB + 38 : Nat) : Int) := by
      rw [findPropertyOffset_float_eq _ healthValueName posB hfsB',
        show healthValueName.length = 11 from rfl]
    have hsl := pySlice4_take_agree payload
      (payload.take offA.toNat ++ repl ++ payload.drop (offA.toNat + 4))
      (posB + 38) offA.toNat htakeA (by omega) (by omega)
      (by rw [hlenA]; omega)
    have hg : getHealth (payload.take offA.toNat ++ repl
        ++ payload.drop (offA.toNat + 4)) = getHealth payload := by
      simp only [getHealth, hoffB, hoffB']
      rw [hsl]
    simp only [readField, hg]
  | weapon nm =>
    simp only [fieldOffset] at hfound hBA
    obtain ⟨posB, hfsB⟩ := findWeaponOffset_pos_inv payload nm hfound
    have hoffB := findWeaponOffset_eq payload nm posB hfsB
    rw [hoffB] at hBA
    have hfsB' : findSub (nm ++ [0]) (payload.take offA.toNat ++ repl
        ++ payload.drop (offA.toNat + 4)) = some posB :=
      findSub_stable _ payload _ offA.toNat posB htakeA hfsB
        (by simp only [List.length_append, List.length_cons,
          List.length_nil]; omega)
    have hoffB' := findWeaponOffset_eq (payload.take offA.toNat ++ repl
      ++ payload.drop (offA.toNat + 4)) nm posB hfsB'
    have hsl := pySlice4_take_agree payload
      (payload.take offA.toNat ++ repl ++ payload.drop (offA.toNat + 4))
      (posB + nm.length + 1) offA.toNat htakeA (by omega) (by omega)
      (by rw [hlenA]; omega)
    have hg : getWeaponAmmo (payload.take offA.toNat ++ repl
        ++ payload.drop (offA.toNat + 4)) nm = getWeaponAmmo payload nm := by
      simp only [getWeaponAmmo, hoffB, hoffB']
      rw [hsl]
    simp only [readField, hg]
  | item nm =>
    simp only [noNulItemName] at hnul
    simp only [fieldOffset] at hfound hBA
    obtain ⟨posB, qB, hfsB, hqB⟩ :=
      findItemQuantityOffset_pos_inv payload nm hfound
    have hbefore := item_token_before_qty payload nm posB qB hnul hfsB hqB
    have hoffB := findItemQuantityOffset_eq payload nm posB qB hfsB hqB
    rw [hoffB] at hBA
    have hfsB' : findSub (nm ++ [0]) (payload.take offA.toNat ++ repl
        ++ payload.drop (offA.toNat + 4)) = some posB :=
      findSub_stable _ payload _ offA.toNat posB htakeA hfsB
        (by simp only [List.length_append, List.length_cons,
          List.length_nil]; omega)
    have hqB' : findSubIn quantityToken (payload.take offA.toNat ++ repl
        ++ payload.drop (offA.toNat + 4)) posB (posB + 100) = some qB :=
      findSubIn_stable quantityToken payload _ posB (posB + 100) qB
        offA.toNat htakeA hqB
        (by rw [show quantityToken.length = 9 from rfl]; omega)
    have hoffB' := findItemQuantityOffset_eq (payload.take offA.toNat ++ repl
      ++ payload.drop (offA.toNat + 4)) nm posB qB hfsB' hqB'
    have hsl := pySlice4_take_agree payload
      (payload.take offA.toNat ++ repl ++ payload.drop (offA.toNat + 4))
      (qB + 34) offA.toNat htakeA (by omega) (by omega)
      (by rw [hlenA]; omega)
    have hg : getItemQuantity (payload.take offA.toNat ++ repl
        ++ payload.drop (offA.toNat + 4)) nm = getItemQuantity payload nm := by
      simp only [getItemQuantity, hoffB, hoffB', hlenA]
      rw [hsl]
    simp only [readField, hg]

/-- C6 counterexample: the distinct weapon fields named `AB` and `B`
address overlapping bytes of the payload `AB\x00<int32>`; writing ammo 0
for `AB` changes the ammo subsequently read for `B` from 67305985
(little-endian 01 02 03 04) to 0. -/
theorem c6_counterexample :
    GameField.weapon [66] ≠ GameField.weapon [65, 66] ∧
    readField [65, 66, 0, 1, 2, 3, 4] (GameField.weapon [66])
      = .ok (some 67305985) ∧
    readField (writeField [65, 66, 0, 1, 2, 3, 4] 0
      (GameField.weapon [65, 66])).1 (GameField.weapon [66])
      = .ok (some 0) :=
  ⟨by decide, rfl, rfl⟩

theorem c6_frame_witness :
    readField (writeField [66, 0, 1, 0, 0, 0, 65, 0, 2, 0, 0, 0] 7
      (GameField.weapon [65])).1 (GameField.weapon [66])
      = readField [66, 0, 1, 0, 0, 0, 65, 0, 2, 0, 0, 0]
          (GameField.weapon [66]) :=
  c6_frame [66, 0, 1, 0, 0, 0, 65, 0, 2, 0, 0, 0] (GameField.weapon [65])
    (GameField.weapon [66]) 7 (by decide) (by decide) (by decide) (by decide)
    (by exact trivial)

/-! ## C7: rebuild / relocate round trip -/

/-- The payload of the C7 counterexample container (76 bytes). -/
def c7Payload : List Nat := List.replicate 76 2

/-- A loadable container: header `78`, declared compressed size 157
(the 156-byte stream plus one trailing byte the decompressor ignores),
declared uncompressed size 76, then the stream and the trailing byte.
Its first signature match is at offset 9, at the stream start. -/
def c7Container : List Nat :=
  120 :: 157 :: 0 :: 0 :: 0 :: 76 :: 0 :: 0 :: 0 ::
    (cmpModel c7Payload ++ [0])

/-- C7 as claimed: for every compressor/decompressor with the zlib
properties the spec states (lossless; stream starts `78 9C`/`78 DA`) and
every loadable container, locating and decompressing the rebuilt
container yields a byte-identical payload. -/
def c7RoundTripClaim : Prop :=
  ∀ (cmp : List Nat → List Nat) (dcp : List Nat → Option (List Nat)),
    zlibSpecProps cmp dcp →
    ∀ (data : List Nat) (r : LoadedSave), load dcp data = .ok r →
      ∃ r2, load dcp (save cmp r.header r.decompressed) = .ok r2 ∧
        r2.decompressed = r.decompressed

/-- C7 counterexample: `c7Container` loads fine (payload = 76 `02`
bytes, recompressing to 156 = 0x9C bytes), but the rebuilt container
starts `78 9C ...` — the header byte `78` followed by the low byte of
the new compressed-size field — so relocating it matches at offset 0
and `load` fails with a struct decoding error instead of returning the
payload. -/
theorem c7_counterexample : ¬ c7RoundTripClaim := by
  intro h
  obtain ⟨r2, hr2, hpay⟩ := h cmpModel dcpModel zlibSpecProps_model
    c7Container ⟨[120], 9, 157, 76, c7Payload⟩ (by rfl)
  have hbad : load dcpModel (save cmpModel
      ((⟨[120], 9, 157, 76, c7Payload⟩ : LoadedSave).header)
      ((⟨[120], 9, 157, 76, c7Payload⟩ : LoadedSave).decompressed))
      = .error .badStruct := by rfl
  rw [hbad] at hr2
  exact Except.noConfusion hr2

/-- C7 (amended): with the zlib properties the spec states, if the
rebuilt container's first signature match falls exactly at the start of
the recompressed stream (offset `len(header) + 8` — true whenever the
fresh size fields introduce no earlier `78 9C`/`78 DA` pair, but not
checked by the code), then relocating and decompressing the rebuilt
container succeeds and returns a payload byte-identical to the
original decompressed payload. -/
theorem c7_round_trip (cmp : List Nat → List Nat)
    (dcp : List Nat → Option (List Nat)) (hz : zlibSpecProps cmp dcp)
    (data : List Nat) (r : LoadedSave)
    (_hload : load dcp data = .ok r)
    (hmatch : firstSig (save cmp r.header r.decompressed)
      = some (r.header.length + 8))
    (hc32 : (cmp r.decompressed).length < 4294967296)
    (hu32 : r.decompressed.length < 4294967296) :
    load dcp (save cmp r.header r.decompressed)
      = .ok ⟨r.header, r.header.length + 8, (cmp r.decompressed).length,
          r.decompressed.length, r.decompressed⟩ := by
  have hlsaved : (save cmp r.header r.decompressed).length
      = r.header.length + 8 + (cmp r.decompressed).length := by
    simp only [save, List.length_append, length_encodeU32]
  have hs1 : pySlice (save cmp r.header r.decompressed)
      (((r.header.length + 8 : Nat) : Int) - 8)
      (((r.header.length + 8 : Nat) : Int) - 4)
      = encodeU32 (cmp r.decompressed).length := by
    rw [show ((r.header.length + 8 : Nat) : Int) - 8
        = ((r.header.length : Nat) : Int) by push_cast; ring,
      show ((r.header.length + 8 : Nat) : Int) - 4
        = ((r.header.length : Nat) : Int) + ((4 : Nat) : Int)
        by push_cast; ring,
      pySlice_eq_drop_take _ r.header.length 4 (by rw [hlsaved]; omega)]
    simp only [save, List.append_assoc]
    rw [List.drop_left' rfl, List.take_left' (length_encodeU32 _)]
  have hs2 : pySlice (save cmp r.header r.decompressed)
      (((r.header.length + 8 : Nat) : Int) - 4)
      ((r.header.length + 8 : Nat) : Int)
      = encodeU32 r.decompressed.length := by
    rw [show ((r.header.length + 8 : Nat) : Int) - 4
        = ((r.header.length + 4 : Nat) : Int) by push_cast; ring,
      show ((r.header.length + 8 : Nat) : Int)
        = ((r.header.length + 4 : Nat) : Int) + ((4 : Nat) : Int)
        by push_cast; ring,
      pySlice_eq_drop_take _ (r.header.length + 4) 4 (by rw [hlsaved]; omega)]
    simp only [save, List.append_assoc]
    rw [List.drop_append 4, List.drop_left' (length_encodeU32 _),
      List.take_left' (length_encodeU32 _)]
  have hs3 : pySlice (save cmp r.header r.decompressed)
      ((r.header.length + 8 : Nat) : Int)
      (((r.header.length + 8 : Nat) : Int)
        + (((cmp r.decompressed).length : Nat) : Int))
      = cmp r.decompressed := by
    rw [pySlice_from]
    have hdrop : (save cmp r.header r.decompressed).drop
        (r.header.length + 8) = cmp r.decompressed := by
      simp only [save]
      refine List.drop_left' ?_
      simp only [List.length_append, length_encodeU32]
    rw [hdrop]
    exact List.take_length _
  have hs0 : pySlice (save cmp r.header r.decompressed) 0
      (((r.header.length + 8 : Nat) : Int) - 8) = r.header := by
    rw [show ((r.header.length + 8 : Nat) : Int) - 8
        = ((r.header.length : Nat) : Int) by push_cast; ring,
      pySlice_prefix_eq _ r.header.length (by rw [hlsaved]; omega)]
    simp only [save, List.append_assoc]
    exact List.take_left' rfl
  simp only [load, hmatch, hs1, hs2, unpack4_encodeU32_of_lt _ hc32,
    unpack4_encodeU32_of_lt _ hu32, hs3, hz.1, hs0]

theorem c7_round_trip_witness :
    load dcpModel (save cmpModel [0] [5]) = .ok ⟨[0], 9, 6, 1, [5]⟩ :=
  c7_round_trip cmpModel dcpModel zlibSpecProps_model
    (save cmpModel [0] [5]) ⟨[0], 9, 6, 1, [5]⟩ (by rfl) (by rfl)
    (by decide) (by decide)
